import Mathlib

/-!
Verification of the AtomSpace / AgentOrchestrator core (`src/opencog`).

The C++ code is shallowly embedded: every store or orchestrator operation
becomes a pure Lean function on an explicit state record, translated clause
by clause from the corresponding C++ member function.  `std::unordered_map`
becomes an association list (`List (κ × α)`) with in-place overwrite on
insert; `std::multimap<AtomType, _>` becomes a `List Atom` kept in global
insertion order (a per-type bucket is the `filter` by that type, which
preserves the C++ per-bucket insertion order); `std::map` (the agent
registry) becomes a list kept sorted by key, matching its key-ordered
iteration; `std::queue` becomes a `List` with push at the back and pop at
the front.  The process-wide `Atom::next_id_` counter is threaded through
every constructing operation explicitly.
-/

/-- Enumeration of atom types, from `AtomType` in `atom.h`. -/
inductive AtomType where
  | NODE
  | LINK
  | CONCEPT_NODE
  | PREDICATE_NODE
  | VARIABLE_NODE
  | EVALUATION_LINK
  | INHERITANCE_LINK
  | SIMILARITY_LINK
  | EXECUTION_LINK
deriving DecidableEq, Repr

/-- An atom, from classes `Atom`/`Node`/`Link` in `atom.h`.  `isNode` is the
virtual `IsNode()` discriminator (`Node` overrides it to true, `Link` to
false); `outgoing` records the ids of the atoms a `Link` was constructed
with (empty for nodes).  The mutable `TruthValue` is omitted: no modelled
operation touches it. -/
structure Atom where
  id : Nat
  type : AtomType
  name : String
  isNode : Bool
  outgoing : List Nat
deriving DecidableEq, Repr

/-- State of one `AtomSpace` (`atomspace.h`): the three indices.  `atomsById`
and `atomsByName` model the two `unordered_map`s as association lists;
`atomsByType` models the `multimap` flattened into insertion order. -/
structure AtomSpace where
  atomsById : List (Nat × Atom)
  atomsByName : List (String × Atom)
  atomsByType : List Atom
deriving DecidableEq, Repr

/-- The empty store, as constructed by `AtomSpace::AtomSpace`. -/
def AtomSpace.empty : AtomSpace := ⟨[], [], []⟩

/-- Lookup in an association list, modelling `map.find(k)`. -/
def assocFind [BEq κ] (l : List (κ × α)) (k : κ) : Option α :=
  (l.find? (fun p => p.1 == k)).map (fun p => p.2)

/-- Insertion modelling `map[k] = v` on a `std::unordered_map`: overwrite in
place when the key is present, append otherwise. -/
def assocInsert [BEq κ] (l : List (κ × α)) (k : κ) (v : α) : List (κ × α) :=
  match l with
  | [] => [(k, v)]
  | (k', v') :: rest =>
    if k' == k then (k, v) :: rest else (k', v') :: assocInsert rest k v

/-- Erasure modelling `map.erase(k)` on a unique-key map: remove the entry
with key `k` when present. -/
def assocErase [BEq κ] (l : List (κ × α)) (k : κ) : List (κ × α) :=
  l.eraseP (fun p => p.1 == k)

/-- Translation of `AtomSpace::AddNode(type, name)` (`atomspace.cc`).  The
process-wide id counter `c` (`Atom::next_id_`) is passed and returned
explicitly; the result triple is (returned atom, new store, new counter).
When the by-name index holds a node-kind atom under `name`, that atom is
returned and nothing changes; otherwise a fresh `Node` is built (taking id
`c`) and inserted into all three indices. -/
def AtomSpace.AddNode (s : AtomSpace) (c : Nat) (t : AtomType) (name : String) :
    Atom × AtomSpace × Nat :=
  match assocFind s.atomsByName name with
  | some a =>
    if a.isNode then (a, s, c)
    else
      let node : Atom := ⟨c, t, name, true, []⟩
      (node,
       ⟨assocInsert s.atomsById node.id node,
        assocInsert s.atomsByName name node,
        s.atomsByType ++ [node]⟩,
       c + 1)
  | none =>
    let node : Atom := ⟨c, t, name, true, []⟩
    (node,
     ⟨assocInsert s.atomsById node.id node,
      assocInsert s.atomsByName name node,
      s.atomsByType ++ [node]⟩,
     c + 1)

/-- Translation of `AtomSpace::AddLink(type, name, outgoing)`: always
constructs a fresh `Link` (taking id `c`) and inserts it into all three
indices, overwriting the by-name entry for `name`. -/
def AtomSpace.AddLink (s : AtomSpace) (c : Nat) (t : AtomType) (name : String)
    (outgoing : List Nat) : Atom × AtomSpace × Nat :=
  let link : Atom := ⟨c, t, name, false, outgoing⟩
  (link,
   ⟨assocInsert s.atomsById link.id link,
    assocInsert s.atomsByName name link,
    s.atomsByType ++ [link]⟩,
   c + 1)

/-- Translation of `AtomSpace::GetAtom(id)`: by-id lookup, `none` is the
`nullptr` sentinel. -/
def AtomSpace.GetAtom (s : AtomSpace) (i : Nat) : Option Atom :=
  assocFind s.atomsById i

/-- Translation of `AtomSpace::GetAtomByName(name)`. -/
def AtomSpace.GetAtomByName (s : AtomSpace) (name : String) : Option Atom :=
  assocFind s.atomsByName name

/-- Translation of `AtomSpace::GetAtomsByType(type)`: the snapshot of the
type bucket in insertion order. -/
def AtomSpace.GetAtomsByType (s : AtomSpace) (t : AtomType) : List Atom :=
  s.atomsByType.filter (fun a => a.type == t)

/-- Translation of `AtomSpace::RemoveAtom(id)`: looks the atom up by id;
when absent returns false.  Otherwise erases the by-name entry under the
atom's *name* (unconditionally, whichever atom that entry currently holds),
erases the first entry of the atom's type bucket whose id is `i` (the
`equal_range` loop with `break`), erases the by-id entry, and returns true. -/
def AtomSpace.RemoveAtom (s : AtomSpace) (i : Nat) : Bool × AtomSpace :=
  match assocFind s.atomsById i with
  | none => (false, s)
  | some a =>
    (true,
     ⟨assocErase s.atomsById i,
      assocErase s.atomsByName a.name,
      s.atomsByType.eraseP (fun x => x.type == a.type && x.id == i)⟩)

/-- Translation of `AtomSpace::Clear()`. -/
def AtomSpace.Clear (_s : AtomSpace) : AtomSpace := AtomSpace.empty

/-- Translation of `AtomSpace::Size()`: the size of the by-id index. -/
def AtomSpace.Size (s : AtomSpace) : Nat :=
  s.atomsById.length

/-- Well-formedness of a store state against a counter value `c`: the two
unique-key indices have no duplicate keys (true of real `unordered_map`s),
and every atom reachable from the by-id or by-name index has an id below the
process-wide counter.  These all hold of every state reachable from the
empty store, and are decidable so concrete witnesses can check them. -/
def AtomSpace.WF (s : AtomSpace) (c : Nat) : Prop :=
  (s.atomsById.map Prod.fst).Nodup ∧
  (s.atomsByName.map Prod.fst).Nodup ∧
  (∀ p ∈ s.atomsById, p.1 < c ∧ p.2.id = p.1) ∧
  (∀ p ∈ s.atomsByName, p.2.id < c)

instance (s : AtomSpace) (c : Nat) : Decidable (AtomSpace.WF s c) := by
  unfold AtomSpace.WF
  infer_instance

/-! Association-list and list lemmas used by the store theorems. -/

/-- Erasing with a test disjoint from the search test does not change a
`find?` result. -/
theorem find?_eraseP_of_not {α : Type} (l : List α) (p q : α → Bool)
    (h : ∀ x, q x = true → p x = false) :
    (l.eraseP q).find? p = l.find? p := by
  induction l with
  | nil => rfl
  | cons x xs ih =>
    by_cases hq : q x = true
    · have hp := h x hq
      simp [List.eraseP_cons, hq, List.find?_cons, hp]
    · simp only [Bool.not_eq_true] at hq
      cases hp : p x with
      | true => simp [List.eraseP_cons, hq, List.find?_cons, hp]
      | false => simp [List.eraseP_cons, hq, List.find?_cons, hp, ih]

/-- When at most one element satisfies the test, erasing it empties the
matches. -/
theorem find?_eraseP_self {α : Type} (l : List α) (p : α → Bool)
    (h : l.countP p ≤ 1) :
    (l.eraseP p).find? p = none := by
  induction l with
  | nil => rfl
  | cons x xs ih =>
    by_cases hp : p x = true
    · have hz : xs.countP p = 0 := by
        have := h
        rw [List.countP_cons_of_pos p xs hp] at this
        omega
      rw [List.countP_eq_zero] at hz
      simp only [List.eraseP_cons, hp, cond_true]
      rw [List.find?_eq_none]
      exact hz
    · simp only [Bool.not_eq_true] at hp
      have hxs : xs.countP p ≤ 1 := by
        have := h
        simp [List.countP_cons, hp] at this
        omega
      simp [List.eraseP_cons, hp, List.find?_cons, ih hxs]

/-- With pairwise-distinct keys, at most one entry matches a given key. -/
theorem countP_key_le_one {κ α : Type} [BEq κ] [LawfulBEq κ]
    (l : List (κ × α)) (k : κ) (h : (l.map Prod.fst).Nodup) :
    l.countP (fun p => p.1 == k) ≤ 1 := by
  induction l with
  | nil => simp
  | cons x xs ih =>
    simp only [List.map_cons, List.nodup_cons] at h
    obtain ⟨hx, hxs⟩ := h
    by_cases hk : (x.1 == k) = true
    · have hx1 : x.1 = k := eq_of_beq hk
      have hz : xs.countP (fun p => p.1 == k) = 0 := by
        rw [List.countP_eq_zero]
        intro y hy hyk
        have hy1 : y.1 = k := eq_of_beq hyk
        exact hx (by rw [hx1, ← hy1]; exact List.mem_map_of_mem Prod.fst hy)
      simp [List.countP_cons, hk, hz]
    · simp only [Bool.not_eq_true] at hk
      simp [List.countP_cons, hk, ih hxs]

/-- Erasing with a test disjoint from a filter test does not change the
filter. -/
theorem filter_eraseP_of_not {α : Type} (l : List α) (p q : α → Bool)
    (h : ∀ x, q x = true → p x = false) :
    (l.eraseP q).filter p = l.filter p := by
  induction l with
  | nil => rfl
  | cons x xs ih =>
    by_cases hq : q x = true
    · have hp := h x hq
      simp [List.eraseP_cons, hq, List.filter_cons, hp]
    · simp only [Bool.not_eq_true] at hq
      cases hp : p x with
      | true => simp [List.eraseP_cons, hq, List.filter_cons, hp, ih]
      | false => simp [List.eraseP_cons, hq, List.filter_cons, hp, ih]

/-- Erasing the first element that passes both a filter test and a second
test commutes with the filter. -/
theorem filter_eraseP_and {α : Type} (l : List α) (p r : α → Bool) :
    (l.eraseP (fun x => p x && r x)).filter p = (l.filter p).eraseP r := by
  induction l with
  | nil => rfl
  | cons x xs ih =>
    cases hp : p x with
    | true =>
      cases hr : r x with
      | true => simp [List.eraseP_cons, List.filter_cons, hp, hr]
      | false => simp [List.eraseP_cons, List.filter_cons, hp, hr, ih]
    | false => simp [List.eraseP_cons, List.filter_cons, hp, ih]

/-- Lookup of a just-inserted key. -/
theorem assocFind_insert_self {κ α : Type} [BEq κ] [LawfulBEq κ]
    (l : List (κ × α)) (k : κ) (v : α) :
    assocFind (assocInsert l k v) k = some v := by
  induction l with
  | nil => simp [assocInsert, assocFind]
  | cons x xs ih =>
    by_cases hk : (x.1 == k) = true
    · simp [assocInsert, assocFind, hk]
    · simp only [Bool.not_eq_true] at hk
      simpa [assocInsert, assocFind, hk] using ih

/-- Lookup of a different key is unchanged by insertion. -/
theorem assocFind_insert_other {κ α : Type} [BEq κ] [LawfulBEq κ]
    (l : List (κ × α)) (k j : κ) (v : α) (h : j ≠ k) :
    assocFind (assocInsert l k v) j = assocFind l j := by
  induction l with
  | nil => simp [assocInsert, assocFind, List.find?_cons, beq_eq_false_iff_ne, Ne.symm h]
  | cons x xs ih =>
    by_cases hk : (x.1 == k) = true
    · have hx1 : x.1 = k := eq_of_beq hk
      have hj : (k == j) = false := by
        rw [beq_eq_false_iff_ne]; exact fun hc => h hc.symm
      simp [assocInsert, assocFind, hk, List.find?_cons, hj, hx1]
    · simp only [Bool.not_eq_true] at hk
      cases hxj : (x.1 == j) with
      | true => simp [assocInsert, assocFind, hk, List.find?_cons, hxj]
      | false =>
        simpa [assocInsert, assocFind, hk, List.find?_cons, hxj] using ih

/-- Inserting a fresh key appends one entry. -/
theorem assocInsert_length_of_fresh {κ α : Type} [BEq κ]
    (l : List (κ × α)) (k : κ) (v : α) (h : assocFind l k = none) :
    (assocInsert l k v).length = l.length + 1 := by
  induction l with
  | nil => rfl
  | cons x xs ih =>
    simp only [assocFind, List.find?_cons] at h
    cases hk : (x.1 == k) with
    | true => simp [hk] at h
    | false =>
      have hxs : assocFind xs k = none := by
        simpa [assocFind, hk] using h
      simp [assocInsert, hk, ih hxs]

/-- A key bounded away from every stored key is absent. -/
theorem assocFind_none_of_lt {α : Type} (l : List (Nat × α)) (c : Nat)
    (h : ∀ p ∈ l, p.1 < c) :
    assocFind l c = none := by
  unfold assocFind
  rw [show l.find? (fun p => p.1 == c) = none from ?_]
  · rfl
  · rw [List.find?_eq_none]
    intro p hp hpc
    have : p.1 = c := by simpa using hpc
    exact absurd this (Nat.ne_of_lt (h p hp))

/-- Unfolding of a successful `RemoveAtom`: shared by the removal theorems. -/
theorem removeAtom_found (s : AtomSpace) (i : Nat) (a : Atom)
    (h : s.GetAtom i = some a) :
    s.RemoveAtom i =
      (true,
       ⟨assocErase s.atomsById i,
        assocErase s.atomsByName a.name,
        s.atomsByType.eraseP (fun x => x.type == a.type && x.id == i)⟩) := by
  unfold AtomSpace.RemoveAtom
  unfold AtomSpace.GetAtom at h
  rw [h]

/-- A found entry is a member whose key matches. -/
theorem assocFind_mem {κ α : Type} [BEq κ] [LawfulBEq κ]
    (l : List (κ × α)) (k : κ) (v : α) (h : assocFind l k = some v) :
    (k, v) ∈ l := by
  unfold assocFind at h
  cases hf : l.find? (fun p => p.1 == k) with
  | none => rw [hf] at h; cases h
  | some q =>
    rw [hf] at h
    have hq : q ∈ l := List.mem_of_find?_eq_some hf
    have hk := @List.find?_some (κ × α) (fun p => p.1 == k) q l hf
    have h1 : q.1 = k := eq_of_beq hk
    have h2 : q.2 = v := by simpa using h
    have : q = (k, v) := Prod.ext h1 h2
    rw [← this]; exact hq

/-! Concrete scenario states used by the witnesses: a node named "X" (id 1),
then a link also named "X" (id 2) that overwrites the by-name entry. -/

/-- Result of `AddNode(CONCEPT_NODE, "X")` on the empty store (counter 1). -/
def storeX : Atom × AtomSpace × Nat :=
  AtomSpace.empty.AddNode 1 AtomType.CONCEPT_NODE "X"

/-- Result of then calling `AddLink(INHERITANCE_LINK, "X", [1])`. -/
def storeXL : Atom × AtomSpace × Nat :=
  storeX.2.1.AddLink storeX.2.2 AtomType.INHERITANCE_LINK "X" [1]

/-- C6: when the by-name entry for `name` holds a node-kind atom, `AddNode`
returns that existing atom, leaves the store and the id counter untouched
(so `Size` is unchanged and nothing is inserted into any index), and a
repeated call — even with a different requested type — returns the same
atom again. -/
theorem claim_C6_addNode_dedupe (s : AtomSpace) (c : Nat) (t t' : AtomType)
    (name : String) (a : Atom)
    (hname : s.GetAtomByName name = some a) (hnode : a.isNode = true) :
    (s.AddNode c t name).1 = a ∧
    (s.AddNode c t name).2.1 = s ∧
    (s.AddNode c t name).2.2 = c ∧
    (s.AddNode c t name).2.1.Size = s.Size ∧
    ((s.AddNode c t name).2.1.AddNode (s.AddNode c t name).2.2 t' name).1 = a := by
  unfold AtomSpace.GetAtomByName at hname
  have heq : s.AddNode c t name = (a, s, c) := by
    unfold AtomSpace.AddNode
    rw [hname]
    simp [hnode]
  have heq' : s.AddNode c t' name = (a, s, c) := by
    unfold AtomSpace.AddNode
    rw [hname]
    simp [hnode]
  simp [heq, heq']

/-- Witness for C6: the second `AddNode` with name "X" (and a different
type) returns the node created by the first, with nothing changed. -/
theorem claim_C6_addNode_dedupe_witness :
    (storeX.2.1.AddNode 2 AtomType.PREDICATE_NODE "X").1 = storeX.1 ∧
    (storeX.2.1.AddNode 2 AtomType.PREDICATE_NODE "X").2.1 = storeX.2.1 ∧
    (storeX.2.1.AddNode 2 AtomType.PREDICATE_NODE "X").2.2 = 2 ∧
    (storeX.2.1.AddNode 2 AtomType.PREDICATE_NODE "X").2.1.Size = storeX.2.1.Size ∧
    ((storeX.2.1.AddNode 2 AtomType.PREDICATE_NODE "X").2.1.AddNode
      (storeX.2.1.AddNode 2 AtomType.PREDICATE_NODE "X").2.2
      AtomType.VARIABLE_NODE "X").1 = storeX.1 :=
  claim_C6_addNode_dedupe storeX.2.1 2 AtomType.PREDICATE_NODE
    AtomType.VARIABLE_NODE "X" storeX.1 (by decide) (by decide)

/-- C8: removing a present atom returns true, after which the by-id lookup
and the by-name lookup under the removed atom's name both return the
not-found sentinel, and `Size` decreases by exactly one. -/
theorem claim_C8_removeAtom_post (s : AtomSpace) (c i : Nat) (a : Atom)
    (hWF : s.WF c) (h : s.GetAtom i = some a) :
    (s.RemoveAtom i).1 = true ∧
    (s.RemoveAtom i).2.GetAtom i = none ∧
    (s.RemoveAtom i).2.GetAtomByName a.name = none ∧
    (s.RemoveAtom i).2.Size + 1 = s.Size := by
  obtain ⟨hid, hname, _hbound, _hnb⟩ := hWF
  rw [removeAtom_found s i a h]
  refine ⟨rfl, ?_, ?_, ?_⟩
  · show assocFind (assocErase s.atomsById i) i = none
    unfold assocFind assocErase
    rw [find?_eraseP_self _ _ (countP_key_le_one s.atomsById i hid)]
    rfl
  · show assocFind (assocErase s.atomsByName a.name) a.name = none
    unfold assocFind assocErase
    rw [find?_eraseP_self _ _ (countP_key_le_one s.atomsByName a.name hname)]
    rfl
  · show (assocErase s.atomsById i).length + 1 = s.atomsById.length
    unfold assocErase
    have hmem : ((i, a) : Nat × Atom) ∈ s.atomsById := assocFind_mem _ _ _ h
    have hlen := @List.length_eraseP_of_mem (Nat × Atom) s.atomsById (i, a)
      (fun p => p.1 == i) hmem (by simp)
    have hpos : 0 < s.atomsById.length := List.length_pos_of_mem hmem
    omega

/-- Witness for C8: removing the node (id 1) from the two-atom store. -/
theorem claim_C8_removeAtom_post_witness :
    (storeXL.2.1.RemoveAtom 1).1 = true ∧
    (storeXL.2.1.RemoveAtom 1).2.GetAtom 1 = none ∧
    (storeXL.2.1.RemoveAtom 1).2.GetAtomByName storeX.1.name = none ∧
    (storeXL.2.1.RemoveAtom 1).2.Size + 1 = storeXL.2.1.Size :=
  claim_C8_removeAtom_post storeXL.2.1 3 1 storeX.1 (by decide) (by decide)

/-- C1 counterexample: in the store holding the node "X" (id 1) and the
link "X" (id 2), the by-name entry for "X" refers to the link, not to the
node about to be removed; `RemoveAtom(1)` nevertheless erases it, so the
other atom's by-name entry does not survive as the claim states. -/
theorem claim_C1_counterexample :
    storeXL.2.1.GetAtom 1 = some storeX.1 ∧
    storeX.1.name = "X" ∧
    storeXL.2.1.GetAtomByName "X" = some storeXL.1 ∧
    storeXL.1.id = 2 ∧
    (storeXL.2.1.RemoveAtom 1).1 = true ∧
    (storeXL.2.1.RemoveAtom 1).2.GetAtomByName "X" = none := by decide

/-- C1 amended: removing a present atom returns true and removes exactly its
by-id and by-type entries, leaving every other atom's by-id and by-type
entries unchanged; in the by-name index the entry stored under the removed
atom's *name* is erased unconditionally — including when it currently refers
to a different atom because a later `AddLink` with the same name overwrote
it — while by-name entries under other names are unchanged. -/
theorem claim_C1_removeAtom_frame (s : AtomSpace) (c i : Nat) (a : Atom)
    (hWF : s.WF c) (h : s.GetAtom i = some a) :
    (s.RemoveAtom i).1 = true ∧
    (s.RemoveAtom i).2.GetAtom i = none ∧
    (∀ j, j ≠ i → (s.RemoveAtom i).2.GetAtom j = s.GetAtom j) ∧
    (s.RemoveAtom i).2.GetAtomByName a.name = none ∧
    (∀ n, n ≠ a.name → (s.RemoveAtom i).2.GetAtomByName n = s.GetAtomByName n) ∧
    (∀ t, t ≠ a.type → (s.RemoveAtom i).2.GetAtomsByType t = s.GetAtomsByType t) ∧
    (s.RemoveAtom i).2.GetAtomsByType a.type =
      (s.GetAtomsByType a.type).eraseP (fun x => x.id == i) := by
  obtain ⟨hid, hname, _hbound, _hnb⟩ := hWF
  rw [removeAtom_found s i a h]
  refine ⟨rfl, ?_, ?_, ?_, ?_, ?_, ?_⟩
  · show assocFind (assocErase s.atomsById i) i = none
    unfold assocFind assocErase
    rw [find?_eraseP_self _ _ (countP_key_le_one s.atomsById i hid)]
    rfl
  · intro j hj
    show assocFind (assocErase s.atomsById i) j = assocFind s.atomsById j
    unfold assocFind assocErase
    rw [find?_eraseP_of_not]
    intro x hx
    have : x.1 = i := by simpa using hx
    rw [this]
    simpa using fun hc => hj hc.symm
  · show assocFind (assocErase s.atomsByName a.name) a.name = none
    unfold assocFind assocErase
    rw [find?_eraseP_self _ _ (countP_key_le_one s.atomsByName a.name hname)]
    rfl
  · intro n hn
    show assocFind (assocErase s.atomsByName a.name) n = assocFind s.atomsByName n
    unfold assocFind assocErase
    rw [find?_eraseP_of_not]
    intro x hx
    have : x.1 = a.name := by simpa using hx
    rw [this]
    simpa using fun hc => hn hc.symm
  · intro t ht
    show (s.atomsByType.eraseP
        (fun x => x.type == a.type && x.id == i)).filter (fun x => x.type == t) =
      s.atomsByType.filter (fun x => x.type == t)
    rw [filter_eraseP_of_not]
    intro x hx
    have : x.type = a.type := by
      have := (Bool.and_eq_true _ _).mp hx
      exact eq_of_beq this.1
    rw [this]
    simpa using fun hc => ht hc.symm
  · show (s.atomsByType.eraseP
        (fun x => x.type == a.type && x.id == i)).filter (fun x => x.type == a.type) =
      (s.atomsByType.filter (fun x => x.type == a.type)).eraseP (fun x => x.id == i)
    exact filter_eraseP_and s.atomsByType
      (fun x => x.type == a.type) (fun x => x.id == i)

/-- Witness for C1 (amended): removing the link (id 2) from the two-atom
store, checking the frame conditions at id 1, name "Y" and the node's
type bucket. -/
theorem claim_C1_removeAtom_frame_witness :
    (storeXL.2.1.RemoveAtom 2).1 = true ∧
    (storeXL.2.1.RemoveAtom 2).2.GetAtom 2 = none ∧
    (storeXL.2.1.RemoveAtom 2).2.GetAtom 1 = storeXL.2.1.GetAtom 1 ∧
    (storeXL.2.1.RemoveAtom 2).2.GetAtomByName storeXL.1.name = none ∧
    (storeXL.2.1.RemoveAtom 2).2.GetAtomByName "Y" = storeXL.2.1.GetAtomByName "Y" ∧
    (storeXL.2.1.RemoveAtom 2).2.GetAtomsByType AtomType.CONCEPT_NODE =
      storeXL.2.1.GetAtomsByType AtomType.CONCEPT_NODE ∧
    (storeXL.2.1.RemoveAtom 2).2.GetAtomsByType storeXL.1.type =
      (storeXL.2.1.GetAtomsByType storeXL.1.type).eraseP (fun x => x.id == 2) :=
  have h := claim_C1_removeAtom_frame storeXL.2.1 3 2 storeXL.1
    (by decide) (by decide)
  ⟨h.1, h.2.1, h.2.2.1 1 (by decide), h.2.2.2.1,
   h.2.2.2.2.1 "Y" (by decide), h.2.2.2.2.2.1 AtomType.CONCEPT_NODE (by decide),
   h.2.2.2.2.2.2⟩

/-- C4: `AddLink` always creates a new atom carrying the current value of
the process-wide counter as a fresh id (no existing atom holds it), advances
the counter, grows `Size` by one, and overwrites the by-name entry for
`name`: afterwards `GetAtomByName name` returns the new link, which is
distinct from the previous name holder, while the previous holder is still
returned by `GetAtom` under its id and still appears in its type bucket. -/
theorem claim_C4_addLink_overwrites_name (s : AtomSpace) (c : Nat)
    (t t' : AtomType) (name : String) (outgoing : List Nat) (a : Atom)
    (hWF : s.WF c) (hname : s.GetAtomByName name = some a)
    (hid : s.GetAtom a.id = some a) (hty : a ∈ s.GetAtomsByType t') :
    (s.AddLink c t name outgoing).1.id = c ∧
    s.GetAtom c = none ∧
    (s.AddLink c t name outgoing).2.2 = c + 1 ∧
    (s.AddLink c t name outgoing).2.1.GetAtomByName name =
      some (s.AddLink c t name outgoing).1 ∧
    (s.AddLink c t name outgoing).1 ≠ a ∧
    (s.AddLink c t name outgoing).2.1.GetAtom a.id = some a ∧
    a ∈ (s.AddLink c t name outgoing).2.1.GetAtomsByType t' ∧
    (s.AddLink c t name outgoing).2.1.Size = s.Size + 1 := by
  obtain ⟨_hidnd, _hnamend, hbound, hnb⟩ := hWF
  have haid : a.id < c := by
    have hmem := assocFind_mem s.atomsByName name a hname
    exact hnb (name, a) hmem
  have hfresh : s.GetAtom c = none := by
    unfold AtomSpace.GetAtom
    exact assocFind_none_of_lt s.atomsById c (fun p hp => (hbound p hp).1)
  refine ⟨rfl, hfresh, rfl, ?_, ?_, ?_, ?_, ?_⟩
  · exact assocFind_insert_self s.atomsByName name ⟨c, t, name, false, outgoing⟩
  · intro hc
    have hcid : (s.AddLink c t name outgoing).1.id = c := rfl
    rw [hc] at hcid
    omega
  · show assocFind
      (assocInsert s.atomsById c ⟨c, t, name, false, outgoing⟩) a.id = some a
    rw [assocFind_insert_other s.atomsById c a.id
      ⟨c, t, name, false, outgoing⟩ (by omega)]
    exact hid
  · show a ∈ (s.atomsByType ++
      [(⟨c, t, name, false, outgoing⟩ : Atom)]).filter (fun x => x.type == t')
    rw [List.filter_append]
    exact List.mem_append_left _ hty
  · show (assocInsert s.atomsById c
      ⟨c, t, name, false, outgoing⟩).length = s.atomsById.length + 1
    exact assocInsert_length_of_fresh s.atomsById c _ hfresh

/-- Witness for C4: adding the link "X" on top of the one-node store. -/
theorem claim_C4_addLink_overwrites_name_witness :
    (storeX.2.1.AddLink 2 AtomType.INHERITANCE_LINK "X" [1]).1.id = 2 ∧
    storeX.2.1.GetAtom 2 = none ∧
    (storeX.2.1.AddLink 2 AtomType.INHERITANCE_LINK "X" [1]).2.2 = 3 ∧
    (storeX.2.1.AddLink 2 AtomType.INHERITANCE_LINK "X" [1]).2.1.GetAtomByName "X" =
      some (storeX.2.1.AddLink 2 AtomType.INHERITANCE_LINK "X" [1]).1 ∧
    (storeX.2.1.AddLink 2 AtomType.INHERITANCE_LINK "X" [1]).1 ≠ storeX.1 ∧
    (storeX.2.1.AddLink 2 AtomType.INHERITANCE_LINK "X" [1]).2.1.GetAtom storeX.1.id =
      some storeX.1 ∧
    storeX.1 ∈ (storeX.2.1.AddLink 2 AtomType.INHERITANCE_LINK "X"
      [1]).2.1.GetAtomsByType AtomType.CONCEPT_NODE ∧
    (storeX.2.1.AddLink 2 AtomType.INHERITANCE_LINK "X" [1]).2.1.Size =
      storeX.2.1.Size + 1 :=
  claim_C4_addLink_overwrites_name storeX.2.1 2 AtomType.INHERITANCE_LINK
    AtomType.CONCEPT_NODE "X" [1] storeX.1
    (by decide) (by decide) (by decide) (by decide)

/-- C10: when the by-name entry for `name` holds a link-kind atom, `AddNode`
does not dedupe: it creates a brand-new node carrying the counter value as a
fresh id, inserts it into all three indices (growing `Size` by one) and
overwrites the by-name entry, so that name no longer resolves to the link,
while the link stays reachable by id and in its type bucket. -/
theorem claim_C10_addNode_link_collision (s : AtomSpace) (c : Nat)
    (t t' : AtomType) (name : String) (a : Atom)
    (hWF : s.WF c) (hname : s.GetAtomByName name = some a)
    (hlink : a.isNode = false)
    (hid : s.GetAtom a.id = some a) (hty : a ∈ s.GetAtomsByType t') :
    (s.AddNode c t name).1.id = c ∧
    (s.AddNode c t name).1.isNode = true ∧
    s.GetAtom c = none ∧
    (s.AddNode c t name).2.2 = c + 1 ∧
    (s.AddNode c t name).2.1.GetAtomByName name = some (s.AddNode c t name).1 ∧
    (s.AddNode c t name).1 ≠ a ∧
    (s.AddNode c t name).2.1.GetAtom c = some (s.AddNode c t name).1 ∧
    (s.AddNode c t name).1 ∈ (s.AddNode c t name).2.1.GetAtomsByType t ∧
    (s.AddNode c t name).2.1.GetAtom a.id = some a ∧
    a ∈ (s.AddNode c t name).2.1.GetAtomsByType t' ∧
    (s.AddNode c t name).2.1.Size = s.Size + 1 := by
  obtain ⟨_hidnd, _hnamend, hbound, hnb⟩ := hWF
  have hname' : assocFind s.atomsByName name = some a := hname
  have heq : s.AddNode c t name =
      (⟨c, t, name, true, []⟩,
       ⟨assocInsert s.atomsById c ⟨c, t, name, true, []⟩,
        assocInsert s.atomsByName name ⟨c, t, name, true, []⟩,
        s.atomsByType ++ [⟨c, t, name, true, []⟩]⟩,
       c + 1) := by
    unfold AtomSpace.AddNode
    rw [hname']
    simp [hlink]
  have haid : a.id < c := by
    have hmem := assocFind_mem s.atomsByName name a hname
    exact hnb (name, a) hmem
  have hfresh : s.GetAtom c = none := by
    unfold AtomSpace.GetAtom
    exact assocFind_none_of_lt s.atomsById c (fun p hp => (hbound p hp).1)
  rw [heq]
  refine ⟨rfl, rfl, hfresh, rfl, ?_, ?_, ?_, ?_, ?_, ?_, ?_⟩
  · exact assocFind_insert_self s.atomsByName name _
  · intro hc
    have : a.isNode = true := by rw [← hc]
    rw [hlink] at this
    cases this
  · exact assocFind_insert_self s.atomsById c ⟨c, t, name, true, []⟩
  · show (⟨c, t, name, true, []⟩ : Atom) ∈
      (s.atomsByType ++
        [(⟨c, t, name, true, []⟩ : Atom)]).filter (fun x => x.type == t)
    rw [List.filter_append]
    refine List.mem_append_right _ ?_
    simp
  · show assocFind
      (assocInsert s.atomsById c ⟨c, t, name, true, []⟩) a.id = some a
    rw [assocFind_insert_other s.atomsById c a.id
      ⟨c, t, name, true, []⟩ (by omega)]
    exact hid
  · show a ∈ (s.atomsByType ++
      [(⟨c, t, name, true, []⟩ : Atom)]).filter (fun x => x.type == t')
    rw [List.filter_append]
    exact List.mem_append_left _ hty
  · show (assocInsert s.atomsById c
      ⟨c, t, name, true, []⟩).length = s.atomsById.length + 1
    exact assocInsert_length_of_fresh s.atomsById c _ hfresh

/-- Witness for C10: calling `AddNode` while "X" resolves to the link. -/
theorem claim_C10_addNode_link_collision_witness :
    (storeXL.2.1.AddNode 3 AtomType.CONCEPT_NODE "X").1.id = 3 ∧
    (storeXL.2.1.AddNode 3 AtomType.CONCEPT_NODE "X").1.isNode = true ∧
    storeXL.2.1.GetAtom 3 = none ∧
    (storeXL.2.1.AddNode 3 AtomType.CONCEPT_NODE "X").2.2 = 4 ∧
    (storeXL.2.1.AddNode 3 AtomType.CONCEPT_NODE "X").2.1.GetAtomByName "X" =
      some (storeXL.2.1.AddNode 3 AtomType.CONCEPT_NODE "X").1 ∧
    (storeXL.2.1.AddNode 3 AtomType.CONCEPT_NODE "X").1 ≠ storeXL.1 ∧
    (storeXL.2.1.AddNode 3 AtomType.CONCEPT_NODE "X").2.1.GetAtom 3 =
      some (storeXL.2.1.AddNode 3 AtomType.CONCEPT_NODE "X").1 ∧
    (storeXL.2.1.AddNode 3 AtomType.CONCEPT_NODE "X").1 ∈
      (storeXL.2.1.AddNode 3 AtomType.CONCEPT_NODE "X").2.1.GetAtomsByType
        AtomType.CONCEPT_NODE ∧
    (storeXL.2.1.AddNode 3 AtomType.CONCEPT_NODE "X").2.1.GetAtom storeXL.1.id =
      some storeXL.1 ∧
    storeXL.1 ∈ (storeXL.2.1.AddNode 3
      AtomType.CONCEPT_NODE "X").2.1.GetAtomsByType AtomType.INHERITANCE_LINK ∧
    (storeXL.2.1.AddNode 3 AtomType.CONCEPT_NODE "X").2.1.Size =
      storeXL.2.1.Size + 1 :=
  claim_C10_addNode_link_collision storeXL.2.1 3 AtomType.CONCEPT_NODE
    AtomType.INHERITANCE_LINK "X" storeXL.1
    (by decide) (by decide) (by decide) (by decide) (by decide)

/-! Process-wide id monotonicity (C7): a world of stores sharing the single
`Atom::next_id_` counter, driven by an arbitrary trace of operations. -/

/-- A store-mutating call, addressed to one store of the process by its
position. -/
inductive StoreOp where
  | addNode (store : Nat) (t : AtomType) (name : String)
  | addLink (store : Nat) (t : AtomType) (name : String) (outgoing : List Nat)
  | removeAtom (store : Nat) (i : Nat)
  | clear (store : Nat)

/-- Process state: the shared `Atom::next_id_` counter (modelled as an
unbounded natural — the 64-bit counter cannot realistically wrap) plus every
tenant's store. -/
structure World where
  nextId : Nat
  stores : List AtomSpace

/-- One operation step.  Besides the new world it reports the ids of the
atoms the step constructed: an id is handed out exactly when the counter
advances, i.e. on `AddLink` and on the creating branch of `AddNode`;
operations addressed to a store position that does not exist do nothing. -/
def World.step (w : World) (op : StoreOp) : World × List Nat :=
  match op with
  | .addNode k t name =>
    match w.stores[k]? with
    | none => (w, [])
    | some s =>
      let r := s.AddNode w.nextId t name
      (⟨r.2.2, w.stores.set k r.2.1⟩, if r.2.2 = w.nextId then [] else [r.1.id])
  | .addLink k t name outgoing =>
    match w.stores[k]? with
    | none => (w, [])
    | some s =>
      let r := s.AddLink w.nextId t name outgoing
      (⟨r.2.2, w.stores.set k r.2.1⟩, [r.1.id])
  | .removeAtom k i =>
    match w.stores[k]? with
    | none => (w, [])
    | some s => (⟨w.nextId, w.stores.set k (s.RemoveAtom i).2⟩, [])
  | .clear k =>
    match w.stores[k]? with
    | none => (w, [])
    | some s => (⟨w.nextId, w.stores.set k s.Clear⟩, [])

/-- Running a trace of operations, collecting every constructed id in
order. -/
def World.run (w : World) : List StoreOp → World × List Nat
  | [] => (w, [])
  | op :: ops =>
    let r := w.step op
    let r2 := r.1.run ops
    (r2.1, r.2 ++ r2.2)

/-- The counter never decreases across a step. -/
theorem World.step_mono (w : World) (op : StoreOp) :
    w.nextId ≤ (w.step op).1.nextId := by
  cases op with
  | addNode k t name =>
    unfold World.step
    cases hgk : w.stores[k]? with
    | none => simp [hgk]
    | some s =>
      simp only [hgk]
      unfold AtomSpace.AddNode
      cases hf : assocFind s.atomsByName name with
      | none => simp
      | some a => cases ha : a.isNode <;> simp [ha]
  | addLink k t name outgoing =>
    unfold World.step
    cases hgk : w.stores[k]? with
    | none => simp [hgk]
    | some s => simp [hgk, AtomSpace.AddLink]
  | removeAtom k i =>
    unfold World.step
    cases hgk : w.stores[k]? with
    | none => simp [hgk]
    | some s => simp [hgk]
  | clear k =>
    unfold World.step
    cases hgk : w.stores[k]? with
    | none => simp [hgk]
    | some s => simp [hgk]

/-- Every id a step hands out is at least the old counter and below the new
one. -/
theorem World.step_ids_bounds (w : World) (op : StoreOp) :
    ∀ i ∈ (w.step op).2, w.nextId ≤ i ∧ i < (w.step op).1.nextId := by
  cases op with
  | addNode k t name =>
    unfold World.step
    cases hgk : w.stores[k]? with
    | none => simp [hgk]
    | some s =>
      simp only [hgk]
      unfold AtomSpace.AddNode
      cases hf : assocFind s.atomsByName name with
      | none =>
        intro i hi
        simp at hi
        simp [hi]
      | some a =>
        cases ha : a.isNode with
        | true => simp [ha]
        | false =>
          intro i hi
          simp [ha] at hi
          simp [ha, hi]
  | addLink k t name outgoing =>
    unfold World.step
    cases hgk : w.stores[k]? with
    | none => simp [hgk]
    | some s =>
      intro i hi
      simp [hgk, AtomSpace.AddLink] at hi
      simp [hgk, AtomSpace.AddLink, hi]
  | removeAtom k i =>
    unfold World.step
    cases hgk : w.stores[k]? with
    | none => simp [hgk]
    | some s => simp [hgk]
  | clear k =>
    unfold World.step
    cases hgk : w.stores[k]? with
    | none => simp [hgk]
    | some s => simp [hgk]

/-- A step hands out at most one id. -/
theorem World.step_ids_short (w : World) (op : StoreOp) :
    (w.step op).2.length ≤ 1 := by
  cases op with
  | addNode k t name =>
    unfold World.step
    cases hgk : w.stores[k]? with
    | none => simp [hgk]
    | some s =>
      simp only [hgk]
      split <;> simp
  | addLink k t name outgoing =>
    unfold World.step
    cases hgk : w.stores[k]? with
    | none => simp [hgk]
    | some s => simp [hgk]
  | removeAtom k i =>
    unfold World.step
    cases hgk : w.stores[k]? with
    | none => simp [hgk]
    | some s => simp [hgk]
  | clear k =>
    unfold World.step
    cases hgk : w.stores[k]? with
    | none => simp [hgk]
    | some s => simp [hgk]

theorem pairwise_of_short {α : Type} (R : α → α → Prop) (l : List α)
    (h : l.length ≤ 1) : l.Pairwise R := by
  match l with
  | [] => exact List.Pairwise.nil
  | [x] => simp
  | a :: b :: t => simp at h

/-- The counter never decreases across a run. -/
theorem World.run_mono (w : World) (ops : List StoreOp) :
    w.nextId ≤ (w.run ops).1.nextId := by
  induction ops generalizing w with
  | nil => simp [World.run]
  | cons op ops ih =>
    calc w.nextId ≤ (w.step op).1.nextId := w.step_mono op
    _ ≤ ((w.step op).1.run ops).1.nextId := ih (w.step op).1

/-- Every id a run hands out is at least the initial counter and below the
final one. -/
theorem World.run_ids_bounds (w : World) (ops : List StoreOp) :
    ∀ i ∈ (w.run ops).2, w.nextId ≤ i ∧ i < (w.run ops).1.nextId := by
  induction ops generalizing w with
  | nil => simp [World.run]
  | cons op ops ih =>
    intro i hi
    simp only [World.run, List.mem_append] at hi
    cases hi with
    | inl h1 =>
      have hb := w.step_ids_bounds op i h1
      have hm := World.run_mono (w.step op).1 ops
      exact ⟨hb.1, lt_of_lt_of_le hb.2 hm⟩
    | inr h2 =>
      have hb := ih (w.step op).1 i h2
      have hm := w.step_mono op
      exact ⟨le_trans hm hb.1, hb.2⟩

/-- C7: along any trace of store operations, in any store of the process,
the ids handed out by atom construction are strictly increasing in creation
order (each is strictly greater than every id handed out before it), hence
pairwise distinct — ids are never reused, even after `RemoveAtom` or `Clear`
steps in the trace — and all are at least the initial counter value. -/
theorem claim_C7_ids_monotone_unique (w : World) (ops : List StoreOp) :
    List.Pairwise (· < ·) (w.run ops).2 ∧
    (w.run ops).2.Nodup ∧
    ∀ i ∈ (w.run ops).2, w.nextId ≤ i := by
  have hpw : ∀ (w : World) (ops : List StoreOp),
      List.Pairwise (· < ·) (w.run ops).2 := by
    intro w ops
    induction ops generalizing w with
    | nil => exact List.Pairwise.nil
    | cons op ops ih =>
      show List.Pairwise (· < ·) ((w.step op).2 ++ ((w.step op).1.run ops).2)
      rw [List.pairwise_append]
      refine ⟨pairwise_of_short _ _ (w.step_ids_short op), ih (w.step op).1, ?_⟩
      intro a ha b hb
      have h1 := (w.step_ids_bounds op a ha).2
      have h2 := (World.run_ids_bounds (w.step op).1 ops b hb).1
      omega
  refine ⟨hpw w ops, ?_, fun i hi => (World.run_ids_bounds w ops i hi).1⟩
  exact (hpw w ops).imp Nat.ne_of_lt

/-! Embedding of the agent layer (`agent.h`, `agent.cc`) and the
orchestrator (`agent-orchestrator.h`, `agent-orchestrator.cc`). -/

/-- Agent states, from `AgentState` in `agent.h`. -/
inductive AgentState where
  | IDLE
  | RUNNING
  | PAUSED
  | COMPLETED
  | FAILED
deriving DecidableEq, Repr

/-- An inter-agent message, from `AgentMessage` in `agent.h`. -/
structure AgentMessage where
  from_agent_id : String
  to_agent_id : String
  type : String
  payload : String
  timestamp : Nat
deriving DecidableEq, Repr

/-- An agent (class `Agent`).  `agent_id`, `tenant_id` and the mutable
`state_` are as in the source; `bound` models whether `orchestrator_` is
non-null.  The virtual behavior is closed off by two parameters: `initRet`
is the Boolean this agent's `Initialize` returns (the base class returns
true; overrides may return false), and `execFaults` says whether its
`Execute` raises on every invocation (true) or returns normally on every
invocation (false).  `OnMessage` is the base-class no-op.  `execCount` is
ghost instrumentation counting `Execute` invocations; the tenant
`AtomSpace` reference is omitted since no modelled operation touches it. -/
structure Agent where
  agent_id : String
  tenant_id : String
  state : AgentState
  bound : Bool
  initRet : Bool
  execFaults : Bool
  execCount : Nat
deriving DecidableEq, Repr

/-- `Agent::Initialize`: the base class sets `state_ = IDLE` and returns
true; the returned Boolean is generalized to `initRet` to cover overrides,
whose result `RegisterAgent` propagates. -/
def Agent.Initialize (a : Agent) : Bool × Agent :=
  (a.initRet, { a with state := AgentState.IDLE })

/-- The effect of the dispatch block of `OrchestratorLoop` on the dispatched
agent: `set_state(RUNNING)`, invoke `Execute()` (counted by the ghost
field), then `set_state(IDLE)` on normal return or `set_state(FAILED)` when
`Execute` raises (the `catch (...)` branch).  The transient RUNNING state is
not observable after the block. -/
def Agent.dispatch (a : Agent) : Agent :=
  { a with
    state := if a.execFaults then AgentState.FAILED else AgentState.IDLE,
    execCount := a.execCount + 1 }

/-- State of the `AgentOrchestrator`: the `std::map` registry as a
key-sorted association list (matching the map's key-ordered iteration), the
two FIFO queues as lists (push at the back, pop at the front), and the
running flag.  `delivered` is ghost instrumentation recording the messages
handed to `OnMessage`. -/
structure Orchestrator where
  agents : List (String × Agent)
  message_queue : List AgentMessage
  scheduled_agents : List String
  running : Bool
  delivered : List AgentMessage
deriving DecidableEq, Repr

/-- A freshly constructed orchestrator (`AgentOrchestrator()`). -/
def Orchestrator.empty : Orchestrator := ⟨[], [], [], false, []⟩

/-- Key-ordered insertion, modelling `agents_[id] = agent` on the
`std::map` at the one call site (`RegisterAgent`), where the key was just
checked absent. -/
def insertSortedKey (l : List (String × Agent)) (k : String) (v : Agent) :
    List (String × Agent) :=
  match l with
  | [] => [(k, v)]
  | (k', v') :: rest =>
    if k < k' then (k, v) :: (k', v') :: rest
    else (k', v') :: insertSortedKey rest k v

/-- Translation of `AgentOrchestrator::GetAgent`. -/
def Orchestrator.GetAgent (o : Orchestrator) (i : String) : Option Agent :=
  assocFind o.agents i

/-- Translation of `AgentOrchestrator::RegisterAgent`: false on a null
agent or a duplicate id; otherwise `set_orchestrator(this)` (the `bound`
flag), store into the registry, and return `agent->Initialize()` — the map
holds the same shared object `Initialize` just mutated, so the stored agent
carries the post-`Initialize` state. -/
def Orchestrator.RegisterAgent (o : Orchestrator) (a? : Option Agent) :
    Bool × Orchestrator :=
  match a? with
  | none => (false, o)
  | some ag =>
    match assocFind o.agents ag.agent_id with
    | some _ => (false, o)
    | none =>
      let r := (Agent.Initialize { ag with bound := true })
      (r.1, { o with agents := insertSortedKey o.agents ag.agent_id r.2 })

/-- Translation of `AgentOrchestrator::UnregisterAgent`: `Shutdown()` (its
effect on the shared object is dropped with the registry entry) then erase;
false when the id is absent. -/
def Orchestrator.UnregisterAgent (o : Orchestrator) (i : String) :
    Bool × Orchestrator :=
  match assocFind o.agents i with
  | none => (false, o)
  | some _ => (true, { o with agents := assocErase o.agents i })

/-- Translation of `AgentOrchestrator::RouteMessage`: push at the back of
the FIFO message queue. -/
def Orchestrator.RouteMessage (o : Orchestrator) (m : AgentMessage) :
    Orchestrator :=
  { o with message_queue := o.message_queue ++ [m] }

/-- Translation of `AgentOrchestrator::BroadcastMessage`: walk the registry
in iteration order, skip `from_agent_id`, and `RouteMessage` one message per
remaining agent carrying the given from/type/payload.  The wall-clock
timestamp read per message is abstracted into the parameter `ts`. -/
def Orchestrator.BroadcastMessage (o : Orchestrator)
    (from_agent_id type payload : String) (ts : Nat) : Orchestrator :=
  { o with
    message_queue := o.message_queue ++
      (o.agents.filter (fun p => p.1 != from_agent_id)).map
        (fun p => ⟨from_agent_id, p.1, type, payload, ts⟩) }

/-- Translation of `AgentOrchestrator::ScheduleAgent`: push at the back of
the FIFO schedule queue. -/
def Orchestrator.ScheduleAgent (o : Orchestrator) (i : String) : Orchestrator :=
  { o with scheduled_agents := o.scheduled_agents ++ [i] }

/-- Translation of `AgentOrchestrator::ProcessMessageQueue`: copy the whole
queue out, clear it, and deliver each message whose target is registered to
that target's `OnMessage` (the base-class no-op, so agents are unchanged);
messages to unregistered ids are silently dropped.  The ghost `delivered`
list records the delivered messages. -/
def Orchestrator.ProcessMessageQueue (o : Orchestrator) : Orchestrator :=
  { o with
    message_queue := [],
    delivered := o.delivered ++
      o.message_queue.filter (fun m => (assocFind o.agents m.to_agent_id).isSome) }

/-- In-place update of the registry entry for `i`, modelling mutation of
the shared agent object held by the map.  The key is present at the only
call site (the dispatch block just looked it up), for which `assocInsert`
is exactly value replacement at the entry\'s position. -/
def Orchestrator.setAgent (o : Orchestrator) (i : String) (a : Agent) :
    Orchestrator :=
  { o with agents := assocInsert o.agents i a }

/-- One iteration of `AgentOrchestrator::OrchestratorLoop` while running:
process the message queue; pop at most one scheduled id (`agent_id` keeps
the empty-string sentinel when the queue is empty, and a popped empty id
fails the `!agent_id.empty()` guard); when the id names a registered agent
in state IDLE, run the dispatch block on it.  The fixed sleep has no state
effect. -/
def Orchestrator.loopIter (o : Orchestrator) : Orchestrator :=
  let o1 := o.ProcessMessageQueue
  match o1.scheduled_agents with
  | [] => o1
  | i :: rest =>
    let o2 := { o1 with scheduled_agents := rest }
    if i = "" then o2
    else
      match assocFind o2.agents i with
      | none => o2
      | some ag =>
        if ag.state = AgentState.IDLE then o2.setAgent i ag.dispatch else o2

/-- Calls other threads may interleave with worker-loop iterations:
scheduling, routing and broadcasting (registration is kept fixed in the
temporal claims, which quantify over these events). -/
inductive LoopEvent where
  | iter
  | schedule (i : String)
  | route (m : AgentMessage)
  | broadcast (from_agent_id type payload : String) (ts : Nat)

/-- Apply one event. -/
def Orchestrator.stepEvent (o : Orchestrator) : LoopEvent → Orchestrator
  | .iter => o.loopIter
  | .schedule i => o.ScheduleAgent i
  | .route m => o.RouteMessage m
  | .broadcast f t p ts => o.BroadcastMessage f t p ts

/-- Apply a sequence of events. -/
def Orchestrator.runEvents (o : Orchestrator) : List LoopEvent → Orchestrator
  | [] => o
  | e :: es => (o.stepEvent e).runEvents es

/-- Counting register attempts: run a sequence of `RegisterAgent` calls,
returning the final orchestrator and how many calls returned true. -/
def Orchestrator.registerRun (o : Orchestrator) :
    List (Option Agent) → Orchestrator × Nat
  | [] => (o, 0)
  | a :: as =>
    let r := o.RegisterAgent a
    let r2 := r.2.registerRun as
    (r2.1, (if r.1 then 1 else 0) + r2.2)

/-! Lemmas about the registry list operations. -/

/-- Lookup of a key just inserted in key order (the key was absent). -/
theorem assocFind_insertSortedKey_self (l : List (String × Agent)) (k : String)
    (v : Agent) (h : assocFind l k = none) :
    assocFind (insertSortedKey l k v) k = some v := by
  induction l with
  | nil => simp [insertSortedKey, assocFind]
  | cons x xs ih =>
    simp only [assocFind, List.find?_cons] at h
    cases hxk : (x.1 == k) with
    | true => simp [hxk] at h
    | false =>
      have hxs : assocFind xs k = none := by
        simpa [assocFind, hxk] using h
      by_cases hlt : k < x.1
      · simp [insertSortedKey, hlt, assocFind, List.find?_cons, hxk]
      · simpa [insertSortedKey, hlt, assocFind, List.find?_cons, hxk]
          using ih hxs

/-- Registering any agent under an already-present id fails and changes
nothing; a whole sequence of such attempts returns zero successes. -/
theorem registerRun_dup (o : Orchestrator) (i : String)
    (h : o.GetAgent i ≠ none) (as : List Agent)
    (hall : ∀ b ∈ as, b.agent_id = i) :
    o.registerRun (as.map some) = (o, 0) := by
  induction as with
  | nil => rfl
  | cons b bs ih =>
    have hb : b.agent_id = i := hall b (by simp)
    obtain ⟨x, hx⟩ : ∃ x, assocFind o.agents b.agent_id = some x := by
      rw [hb]
      cases hf : assocFind o.agents i with
      | none => exact absurd hf h
      | some x => exact ⟨x, rfl⟩
    have hreg : o.RegisterAgent (some b) = (false, o) := by
      show (match assocFind o.agents b.agent_id with
            | some _ => (false, o)
            | none =>
              let r := (Agent.Initialize { b with bound := true })
              (r.1,
               { o with agents := insertSortedKey o.agents b.agent_id r.2 })) =
          (false, o)
      rw [hx]
    have hrest := ih (fun c hc => hall c (List.mem_cons_of_mem b hc))
    simp only [List.map_cons, Orchestrator.registerRun, hreg, hrest]
    simp

/-- Unfolding of one loop iteration with the transient state written out. -/
theorem loopIter_eq (o : Orchestrator) :
    o.loopIter =
      match o.scheduled_agents with
      | [] => o.ProcessMessageQueue
      | j :: rest =>
        let o2 := { o.ProcessMessageQueue with scheduled_agents := rest }
        if j = "" then o2
        else
          match assocFind o.agents j with
          | none => o2
          | some ag =>
            if ag.state = AgentState.IDLE then o2.setAgent j ag.dispatch
            else o2 := rfl

/-- A registered agent that is not IDLE is untouched by a loop iteration. -/
theorem loopIter_frame_notIdle (o : Orchestrator) (i : String) (b : Agent)
    (hb : o.GetAgent i = some b) (hni : b.state ≠ AgentState.IDLE) :
    o.loopIter.GetAgent i = some b := by
  rw [loopIter_eq]
  cases hq : o.scheduled_agents with
  | nil => exact hb
  | cons j rest =>
    dsimp only
    by_cases hje : j = ""
    · rw [if_pos hje]
      exact hb
    · rw [if_neg hje]
      cases hfj : assocFind o.agents j with
      | none => exact hb
      | some c =>
        dsimp only
        by_cases hc : c.state = AgentState.IDLE
        · rw [if_pos hc]
          have hji : j ≠ i := by
            intro he
            rw [he] at hfj
            have hcb : c = b := by
              have := hb
              unfold Orchestrator.GetAgent at this
              rw [this] at hfj
              exact (Option.some.injEq _ _ ▸ hfj).symm
            exact hni (hcb ▸ hc)
          show assocFind (assocInsert o.agents j c.dispatch) i = some b
          rw [assocFind_insert_other o.agents j i c.dispatch (Ne.symm hji)]
          exact hb
        · rw [if_neg hc]
          exact hb

/-- A loop iteration whose schedule queue starts with a registered IDLE
agent dispatches exactly that agent. -/
theorem loopIter_dispatch (o : Orchestrator) (j : String) (q : List String)
    (b : Agent) (hq : o.scheduled_agents = j :: q) (hne : j ≠ "")
    (hb : o.GetAgent j = some b) (hidle : b.state = AgentState.IDLE) :
    o.loopIter.GetAgent j = some b.dispatch := by
  rw [loopIter_eq, hq]
  dsimp only
  rw [if_neg hne]
  have hb' : assocFind o.agents j = some b := hb
  rw [hb']
  dsimp only
  rw [if_pos hidle]
  show assocFind (assocInsert o.agents j b.dispatch) j = some b.dispatch
  exact assocFind_insert_self o.agents j b.dispatch

/-- A FAILED registered agent is untouched by any single event. -/
theorem failed_stays_step (o : Orchestrator) (i : String) (b : Agent)
    (hb : o.GetAgent i = some b) (hfs : b.state = AgentState.FAILED)
    (e : LoopEvent) :
    (o.stepEvent e).GetAgent i = some b := by
  cases e with
  | iter =>
    exact loopIter_frame_notIdle o i b hb (by rw [hfs]; intro hc; cases hc)
  | schedule j => exact hb
  | route m => exact hb
  | broadcast f t p ts => exact hb

/-- A FAILED registered agent stays exactly as it is — same state, same
ghost execution count — across any sequence of loop iterations, schedule
calls, routes and broadcasts: it is never dispatched again. -/
theorem failed_stays_run (o : Orchestrator) (i : String) (b : Agent)
    (hb : o.GetAgent i = some b) (hfs : b.state = AgentState.FAILED)
    (evs : List LoopEvent) :
    (o.runEvents evs).GetAgent i = some b := by
  induction evs generalizing o with
  | nil => exact hb
  | cons e es ih => exact ih _ (failed_stays_step o i b hb hfs e)

/-- C3: `RegisterAgent` returns false on a null agent (no state change) and
propagates `Initialize()`'s result on a fresh id, having bound and stored
the agent; across `N` sequential attempts with the same id the registration
takes effect exactly once — the first attempt stores the agent and every
later attempt returns false and leaves the orchestrator exactly as it was —
and the number of attempts returning true is one precisely when the first
agent's `Initialize` returns true (always, for the base class). -/
theorem claim_C3_registerAgent (o : Orchestrator) (ag : Agent)
    (rest : List Agent)
    (hfresh : o.GetAgent ag.agent_id = none)
    (hrest : ∀ b ∈ rest, b.agent_id = ag.agent_id) :
    o.RegisterAgent none = (false, o) ∧
    (o.RegisterAgent (some ag)).1 = ag.initRet ∧
    (o.RegisterAgent (some ag)).2.GetAgent ag.agent_id =
      some { ag with bound := true, state := AgentState.IDLE } ∧
    (o.registerRun ((ag :: rest).map some)).1 = (o.RegisterAgent (some ag)).2 ∧
    (o.registerRun ((ag :: rest).map some)).2 =
      if ag.initRet then 1 else 0 := by
  have hfresh' : assocFind o.agents ag.agent_id = none := hfresh
  have hreg : o.RegisterAgent (some ag) =
      (ag.initRet,
       { o with agents := (insertSortedKey o.agents ag.agent_id
           { ag with bound := true, state := AgentState.IDLE }) }) := by
    show (match assocFind o.agents ag.agent_id with
          | some _ => (false, o)
          | none =>
            let r := (Agent.Initialize { ag with bound := true })
            (r.1,
             { o with
               agents := insertSortedKey o.agents ag.agent_id r.2 })) = _
    rw [hfresh']
    rfl
  have hstored : (o.RegisterAgent (some ag)).2.GetAgent ag.agent_id =
      some { ag with bound := true, state := AgentState.IDLE } := by
    rw [hreg]
    exact assocFind_insertSortedKey_self o.agents ag.agent_id _ hfresh'
  have hne2 : (o.RegisterAgent (some ag)).2.GetAgent ag.agent_id ≠ none := by
    rw [hstored]
    intro hcc
    cases hcc
  have hdup := registerRun_dup (o.RegisterAgent (some ag)).2 ag.agent_id hne2
    rest hrest
  refine ⟨rfl, by rw [hreg], hstored, ?_, ?_⟩
  · simp only [List.map_cons, Orchestrator.registerRun, hdup]
  · simp only [List.map_cons, Orchestrator.registerRun, hdup]
    rw [hreg]
    simp

/-- Witness for C3: two attempts under id "a" on the empty orchestrator
succeed (return true, register) exactly once. -/
theorem claim_C3_registerAgent_witness :
    Orchestrator.empty.RegisterAgent none = (false, Orchestrator.empty) ∧
    (Orchestrator.empty.RegisterAgent
      (some ⟨"a", "t", AgentState.IDLE, false, true, false, 0⟩)).1 = true ∧
    (Orchestrator.empty.RegisterAgent
      (some ⟨"a", "t", AgentState.IDLE, false, true, false, 0⟩)).2.GetAgent "a" =
      some ⟨"a", "t", AgentState.IDLE, true, true, false, 0⟩ ∧
    (Orchestrator.empty.registerRun
        [some ⟨"a", "t", AgentState.IDLE, false, true, false, 0⟩,
         some ⟨"a", "t", AgentState.IDLE, false, true, false, 0⟩]).1 =
      (Orchestrator.empty.RegisterAgent
        (some ⟨"a", "t", AgentState.IDLE, false, true, false, 0⟩)).2 ∧
    (Orchestrator.empty.registerRun
        [some ⟨"a", "t", AgentState.IDLE, false, true, false, 0⟩,
         some ⟨"a", "t", AgentState.IDLE, false, true, false, 0⟩]).2 = 1 :=
  claim_C3_registerAgent Orchestrator.empty
    ⟨"a", "t", AgentState.IDLE, false, true, false, 0⟩
    [⟨"a", "t", AgentState.IDLE, false, true, false, 0⟩]
    (by decide) (by decide)

/-- C9 counterexample: the claim's dispatch clause fails for an agent whose
id is the empty string.  Such an agent — non-null, not yet registered, with
`Initialize` returning false — is registered and bound exactly as the claim
says, but the worker loop's local `std::string agent_id;` starts empty, so
a popped `""` fails the `!agent_id.empty()` guard and the agent is never
dispatched: after scheduling it, loop iterations leave it IDLE with its
ghost execution count still zero. -/
theorem claim_C9_counterexample :
    (Orchestrator.empty.RegisterAgent
      (some ⟨"", "t", AgentState.IDLE, false, false, false, 0⟩)).1 = false ∧
    (Orchestrator.empty.RegisterAgent
      (some ⟨"", "t", AgentState.IDLE, false, false, false, 0⟩)).2.GetAgent "" =
      some ⟨"", "t", AgentState.IDLE, true, false, false, 0⟩ ∧
    ((Orchestrator.empty.RegisterAgent
      (some ⟨"", "t", AgentState.IDLE, false, false, false, 0⟩)).2.ScheduleAgent
        "").loopIter.GetAgent "" =
      some ⟨"", "t", AgentState.IDLE, true, false, false, 0⟩ ∧
    (((Orchestrator.empty.RegisterAgent
      (some ⟨"", "t", AgentState.IDLE, false, false, false, 0⟩)).2.ScheduleAgent
        "").loopIter.runEvents
        [LoopEvent.schedule "", LoopEvent.iter, LoopEvent.schedule "",
         LoopEvent.iter]).GetAgent "" =
      some ⟨"", "t", AgentState.IDLE, true, false, false, 0⟩ := by decide

/-- C9 (amended): registering a fresh, non-null agent whose `Initialize`
returns false yields false, yet the agent is stored (bound to the
orchestrator) — so a later attempt with the same id fails as a duplicate
with no state change — and, provided its id is not the empty string (the
loop's empty-string sentinel: an empty-id agent is never dispatched, see
the counterexample above), the agent can still be scheduled and is
dispatched by the next worker-loop iteration (its `Execute` runs, as the
ghost-counted `dispatch` in the conclusion shows). -/
theorem claim_C9_register_init_false (o : Orchestrator) (ag : Agent)
    (hfresh : o.GetAgent ag.agent_id = none)
    (hinit : ag.initRet = false)
    (hne : ag.agent_id ≠ "")
    (hq : o.scheduled_agents = []) :
    (o.RegisterAgent (some ag)).1 = false ∧
    (o.RegisterAgent (some ag)).2.GetAgent ag.agent_id =
      some { ag with bound := true, state := AgentState.IDLE } ∧
    (∀ b : Agent, b.agent_id = ag.agent_id →
      ((o.RegisterAgent (some ag)).2.RegisterAgent (some b)).1 = false ∧
      ((o.RegisterAgent (some ag)).2.RegisterAgent (some b)).2 =
        (o.RegisterAgent (some ag)).2) ∧
    ((o.RegisterAgent (some ag)).2.ScheduleAgent ag.agent_id).loopIter.GetAgent
        ag.agent_id =
      some (Agent.dispatch { ag with bound := true, state := AgentState.IDLE }) := by
  have hfresh' : assocFind o.agents ag.agent_id = none := hfresh
  have hreg : o.RegisterAgent (some ag) =
      (ag.initRet,
       { o with agents := (insertSortedKey o.agents ag.agent_id
           { ag with bound := true, state := AgentState.IDLE }) }) := by
    show (match assocFind o.agents ag.agent_id with
          | some _ => (false, o)
          | none =>
            let r := (Agent.Initialize { ag with bound := true })
            (r.1,
             { o with
               agents := insertSortedKey o.agents ag.agent_id r.2 })) = _
    rw [hfresh']
    rfl
  have hstored : (o.RegisterAgent (some ag)).2.GetAgent ag.agent_id =
      some { ag with bound := true, state := AgentState.IDLE } := by
    rw [hreg]
    exact assocFind_insertSortedKey_self o.agents ag.agent_id _ hfresh'
  refine ⟨by rw [hreg, hinit], hstored, ?_, ?_⟩
  · intro b hb
    have hbfind : assocFind (o.RegisterAgent (some ag)).2.agents b.agent_id =
        some { ag with bound := true, state := AgentState.IDLE } := by
      rw [hb]
      exact hstored
    constructor
    · show (match assocFind (o.RegisterAgent (some ag)).2.agents b.agent_id with
            | some _ => (false, (o.RegisterAgent (some ag)).2)
            | none =>
              let r := (Agent.Initialize { b with bound := true })
              (r.1,
               { (o.RegisterAgent (some ag)).2 with
                 agents := insertSortedKey (o.RegisterAgent (some ag)).2.agents
                   b.agent_id r.2 })).1 = false
      rw [hbfind]
    · show (match assocFind (o.RegisterAgent (some ag)).2.agents b.agent_id with
            | some _ => (false, (o.RegisterAgent (some ag)).2)
            | none =>
              let r := (Agent.Initialize { b with bound := true })
              (r.1,
               { (o.RegisterAgent (some ag)).2 with
                 agents := insertSortedKey (o.RegisterAgent (some ag)).2.agents
                   b.agent_id r.2 })).2 = (o.RegisterAgent (some ag)).2
      rw [hbfind]
  · have hsch : ((o.RegisterAgent (some ag)).2.ScheduleAgent
        ag.agent_id).scheduled_agents = ag.agent_id :: [] := by
      show (o.RegisterAgent (some ag)).2.scheduled_agents ++ [ag.agent_id] = _
      rw [hreg]
      dsimp only
      rw [hq]
      rfl
    have hb2 : ((o.RegisterAgent (some ag)).2.ScheduleAgent
        ag.agent_id).GetAgent ag.agent_id =
        some { ag with bound := true, state := AgentState.IDLE } := hstored
    exact loopIter_dispatch _ ag.agent_id []
      { ag with bound := true, state := AgentState.IDLE } hsch hne hb2 rfl

/-- Witness for C9: an agent with `Initialize` returning false is stored
anyway, duplicates fail, and one loop iteration after scheduling dispatches
it (incrementing the ghost execution counter). -/
theorem claim_C9_register_init_false_witness :
    (Orchestrator.empty.RegisterAgent
      (some ⟨"a", "t", AgentState.IDLE, false, false, false, 0⟩)).1 = false ∧
    (Orchestrator.empty.RegisterAgent
      (some ⟨"a", "t", AgentState.IDLE, false, false, false, 0⟩)).2.GetAgent "a" =
      some ⟨"a", "t", AgentState.IDLE, true, false, false, 0⟩ ∧
    ((Orchestrator.empty.RegisterAgent
      (some ⟨"a", "t", AgentState.IDLE, false, false, false, 0⟩)).2.RegisterAgent
        (some ⟨"a", "t", AgentState.IDLE, false, false, false, 0⟩)).1 = false ∧
    ((Orchestrator.empty.RegisterAgent
      (some ⟨"a", "t", AgentState.IDLE, false, false, false, 0⟩)).2.RegisterAgent
        (some ⟨"a", "t", AgentState.IDLE, false, false, false, 0⟩)).2 =
      (Orchestrator.empty.RegisterAgent
        (some ⟨"a", "t", AgentState.IDLE, false, false, false, 0⟩)).2 ∧
    ((Orchestrator.empty.RegisterAgent
      (some ⟨"a", "t", AgentState.IDLE, false, false, false, 0⟩)).2.ScheduleAgent
        "a").loopIter.GetAgent "a" =
      some ⟨"a", "t", AgentState.IDLE, true, false, false, 1⟩ :=
  have h := claim_C9_register_init_false Orchestrator.empty
    ⟨"a", "t", AgentState.IDLE, false, false, false, 0⟩
    (by decide) (by decide) (by decide) (by decide)
  ⟨h.1, h.2.1, (h.2.2.1 _ rfl).1, (h.2.2.1 _ rfl).2, h.2.2.2⟩

/-- C2: a registered IDLE agent whose `Execute` faults on every invocation
is dispatched by the iteration that pops its id — the `catch (...)` converts
the fault into the FAILED transition, so the iteration itself completes
normally (the model's `loopIter` is a total function) — and afterwards the
agent stays exactly in FAILED with its execution count frozen across any
sequence of further loop iterations, `ScheduleAgent` calls, routes and
broadcasts: it is never dispatched again. -/
theorem claim_C2_failing_agent (o : Orchestrator) (q : List String)
    (ag : Agent)
    (hreg : o.GetAgent ag.agent_id = some ag)
    (hfault : ag.execFaults = true)
    (hidle : ag.state = AgentState.IDLE)
    (hne : ag.agent_id ≠ "")
    (hq : o.scheduled_agents = ag.agent_id :: q) :
    o.loopIter.GetAgent ag.agent_id =
      some { ag with state := AgentState.FAILED,
                     execCount := ag.execCount + 1 } ∧
    ∀ evs : List LoopEvent,
      (o.loopIter.runEvents evs).GetAgent ag.agent_id =
        some { ag with state := AgentState.FAILED,
                       execCount := ag.execCount + 1 } := by
  have hd : ag.dispatch =
      { ag with state := AgentState.FAILED, execCount := ag.execCount + 1 } := by
    unfold Agent.dispatch
    rw [hfault]
    simp
  have h1 := loopIter_dispatch o ag.agent_id q ag hq hne hreg hidle
  rw [hd] at h1
  exact ⟨h1, fun evs => failed_stays_run o.loopIter ag.agent_id _ h1 rfl evs⟩

/-- Witness for C2: a registered always-faulting agent is FAILED with one
recorded execution after its first dispatch, and stays so across further
schedules and iterations. -/
theorem claim_C2_failing_agent_witness :
    ((Orchestrator.empty.RegisterAgent
        (some ⟨"a", "t", AgentState.IDLE, false, true, true, 0⟩)).2.ScheduleAgent
        "a").loopIter.GetAgent "a" =
      some ⟨"a", "t", AgentState.FAILED, true, true, true, 1⟩ ∧
    (((Orchestrator.empty.RegisterAgent
        (some ⟨"a", "t", AgentState.IDLE, false, true, true, 0⟩)).2.ScheduleAgent
        "a").loopIter.runEvents
        [LoopEvent.schedule "a", LoopEvent.iter, LoopEvent.schedule "a",
         LoopEvent.iter]).GetAgent "a" =
      some ⟨"a", "t", AgentState.FAILED, true, true, true, 1⟩ :=
  have h := claim_C2_failing_agent
    ((Orchestrator.empty.RegisterAgent
      (some ⟨"a", "t", AgentState.IDLE, false, true, true, 0⟩)).2.ScheduleAgent "a")
    [] ⟨"a", "t", AgentState.IDLE, true, true, true, 0⟩
    (by decide) (by decide) (by decide) (by decide) (by decide)
  ⟨h.1,
   h.2 [LoopEvent.schedule "a", LoopEvent.iter, LoopEvent.schedule "a",
        LoopEvent.iter]⟩

/-- Filtering one present key out of a duplicate-free registry shortens it
by exactly one. -/
theorem length_filter_ne_key (l : List (String × Agent)) (A : String)
    (hnd : (l.map Prod.fst).Nodup) (hA : A ∈ l.map Prod.fst) :
    (l.filter (fun p => p.1 != A)).length + 1 = l.length := by
  induction l with
  | nil => simp at hA
  | cons x xs ih =>
    simp only [List.map_cons, List.nodup_cons] at hnd
    obtain ⟨hx, hxs⟩ := hnd
    by_cases hxa : x.1 = A
    · have hall : xs.filter (fun p => p.1 != A) = xs := by
        rw [List.filter_eq_self]
        intro p hp
        have hpa : p.1 ≠ A := by
          intro he
          exact hx (by rw [hxa, ← he]; exact List.mem_map_of_mem Prod.fst hp)
        simpa using hpa
      have hxf : (x.1 != A) = false := by simpa using hxa
      simp [List.filter_cons, hxf, hall]
    · have hA' : A ∈ xs.map Prod.fst := by
        rcases List.mem_cons.mp hA with h1 | h2
        · exact absurd h1.symm hxa
        · exact h2
      have hxf : (x.1 != A) = true := by simpa using hxa
      have := ih hxs hA'
      simp only [List.filter_cons, hxf, if_true, List.length_cons]
      omega

/-- Keys of the filtered registry are the filtered keys, in order. -/
theorem map_fst_filter_ne (l : List (String × Agent)) (A : String) :
    (l.filter (fun p => p.1 != A)).map Prod.fst =
      (l.map Prod.fst).filter (fun i => i != A) := by
  induction l with
  | nil => rfl
  | cons x xs ih =>
    cases hxa : (x.1 != A) with
    | true => simp [List.filter_cons, hxa, ih]
    | false => simp [List.filter_cons, hxa, ih]

/-- C5: broadcasting from a registered agent `A` appends to the message
queue exactly one message per registered agent other than `A`, in registry
iteration order — `n − 1` messages when `n` agents are registered — each
carrying from `A` and the given type and payload, and none addressed to `A`
itself. -/
theorem claim_C5_broadcast (o : Orchestrator) (A T P : String) (ts : Nat)
    (hnd : (o.agents.map Prod.fst).Nodup)
    (hA : A ∈ o.agents.map Prod.fst) :
    (o.BroadcastMessage A T P ts).message_queue =
      o.message_queue ++
        ((o.agents.filter (fun p => p.1 != A)).map
          (fun p => ⟨A, p.1, T, P, ts⟩)) ∧
    ((o.BroadcastMessage A T P ts).message_queue.drop
        o.message_queue.length).length + 1 = o.agents.length ∧
    ((o.BroadcastMessage A T P ts).message_queue.drop
        o.message_queue.length).map (fun m => m.to_agent_id) =
      (o.agents.map Prod.fst).filter (fun i => i != A) ∧
    ∀ m ∈ (o.BroadcastMessage A T P ts).message_queue.drop
        o.message_queue.length,
      m.from_agent_id = A ∧ m.type = T ∧ m.payload = P ∧ m.to_agent_id ≠ A := by
  have hblock : (o.BroadcastMessage A T P ts).message_queue.drop
      o.message_queue.length =
      (o.agents.filter (fun p => p.1 != A)).map
        (fun p => (⟨A, p.1, T, P, ts⟩ : AgentMessage)) := by
    show (o.message_queue ++ _).drop o.message_queue.length = _
    exact List.drop_left _ _
  refine ⟨rfl, ?_, ?_, ?_⟩
  · rw [hblock, List.length_map]
    exact length_filter_ne_key o.agents A hnd hA
  · rw [hblock, List.map_map]
    exact map_fst_filter_ne o.agents A
  · rw [hblock]
    intro m hm
    obtain ⟨p, hp, hpm⟩ := List.mem_map.mp hm
    have hp2 := (List.mem_filter.mp hp).2
    refine ⟨by rw [← hpm], by rw [← hpm], by rw [← hpm], ?_⟩
    rw [← hpm]
    simpa using hp2

/-- Witness for C5: broadcasting from "b" in a three-agent registry
enqueues exactly the two messages to "a" and "c", in registry order. -/
theorem claim_C5_broadcast_witness :
    ((Orchestrator.mk
        [("a", ⟨"a", "t", AgentState.IDLE, true, true, false, 0⟩),
         ("b", ⟨"b", "t", AgentState.IDLE, true, true, false, 0⟩),
         ("c", ⟨"c", "t", AgentState.IDLE, true, true, false, 0⟩)]
        [] [] false []).BroadcastMessage "b" "greet" "hi" 7).message_queue =
      [] ++ [⟨"b", "a", "greet", "hi", 7⟩, ⟨"b", "c", "greet", "hi", 7⟩] ∧
    (((Orchestrator.mk
        [("a", ⟨"a", "t", AgentState.IDLE, true, true, false, 0⟩),
         ("b", ⟨"b", "t", AgentState.IDLE, true, true, false, 0⟩),
         ("c", ⟨"c", "t", AgentState.IDLE, true, true, false, 0⟩)]
        [] [] false []).BroadcastMessage "b" "greet" "hi"
        7).message_queue.drop 0).length + 1 = 3 ∧
    (((Orchestrator.mk
        [("a", ⟨"a", "t", AgentState.IDLE, true, true, false, 0⟩),
         ("b", ⟨"b", "t", AgentState.IDLE, true, true, false, 0⟩),
         ("c", ⟨"c", "t", AgentState.IDLE, true, true, false, 0⟩)]
        [] [] false []).BroadcastMessage "b" "greet" "hi"
        7).message_queue.drop 0).map (fun m => m.to_agent_id) = ["a", "c"] ∧
    ((⟨"b", "a", "greet", "hi", 7⟩ : AgentMessage).from_agent_id = "b" ∧
     (⟨"b", "a", "greet", "hi", 7⟩ : AgentMessage).type = "greet" ∧
     (⟨"b", "a", "greet", "hi", 7⟩ : AgentMessage).payload = "hi" ∧
     (⟨"b", "a", "greet", "hi", 7⟩ : AgentMessage).to_agent_id ≠ "b") :=
  have h := claim_C5_broadcast
    (Orchestrator.mk
      [("a", ⟨"a", "t", AgentState.IDLE, true, true, false, 0⟩),
       ("b", ⟨"b", "t", AgentState.IDLE, true, true, false, 0⟩),
       ("c", ⟨"c", "t", AgentState.IDLE, true, true, false, 0⟩)]
      [] [] false []) "b" "greet" "hi" 7 (by decide) (by decide)
  ⟨h.1, h.2.1, h.2.2.1, h.2.2.2 ⟨"b", "a", "greet", "hi", 7⟩ (by decide)⟩
